import Mathlib

/-!
Verification development for the encodarr controller's library manager
(`controller/library/manager.go`).  The Go source is shallowly embedded:
pure Lean functions mirror the manager's control flow, machine time is
modelled as `Int` nanoseconds, Go maps become functions `Int → Option α`,
and the side effects performed while scanning (data-store queries, log
statements, queue pushes, persistence calls) are recorded in an explicit
effect trace so that claims about control flow become statements about
the trace.
-/

namespace Encodarr

/-- Modelled from the spec: file metadata extracted by the Metadata Reader
(`controller.FileMetadata`, declared outside `src/`); its contents are opaque
to the scheduler, so it is embedded as an opaque payload string. -/
abbrev FileMetadata := String

/-- Modelled from the spec: `controller.Job` (declared outside `src/`) — a
unit of transcoding work with a unique identifier, source path, decided
command and extracted metadata (spec section 3). -/
structure Job where
  UUID : String
  Path : String
  Command : List String
  Metadata : FileMetadata
deriving DecidableEq

/-- Modelled from the spec: `controller.Library` (declared outside `src/`) —
a configured scan root with identity, folder, priority, check interval,
path masks, command-decider settings and an owned queue of jobs
(spec sections 3 and 6).  The queue is kept as a `List Job` in insertion
order. -/
structure Library where
  ID : Int
  Folder : String
  Priority : Int
  FsCheckInterval : Int
  PathMasks : List String
  CommandDeciderSettings : String
  Queue : List Job
deriving DecidableEq

namespace LibraryQueue

/-- Modelled from the spec: `controller.LibraryQueue.InQueuePath` (declared
outside `src/`) — the existence check by path required by spec section 3
("supports an existence check by path"); only the path of the probe job is
consulted. -/
def InQueuePath (q : List Job) (j : Job) : Bool :=
  q.any (fun x => x.Path == j.Path)

/-- Modelled from the spec: `controller.LibraryQueue.Push` (declared outside
`src/`) — ordered push preserving insertion order (spec section 3). -/
def Push (q : List Job) (j : Job) : List Job :=
  q ++ [j]

end LibraryQueue

/-- Embeds Go `strings.HasPrefix` on character lists: `startsWithL s pat`
is true when `pat` is an initial segment of `s`. -/
def startsWithL : List Char → List Char → Bool
  | _, [] => true
  | [], _ :: _ => false
  | a :: as, b :: bs => (a == b) && startsWithL as bs

/-- Embeds Go `strings.Contains` on character lists: true when `pat` occurs
as a contiguous segment of `s`. -/
def containsSubL : List Char → List Char → Bool
  | [], pat => pat == []
  | c :: rest, pat => startsWithL (c :: rest) pat || containsSubL rest pat

/-- Embeds Go `strings.Contains(s, sub)` on strings. -/
def strContains (s sub : String) : Bool :=
  containsSubL s.toList sub.toList


/-- Embeds the scheduler state of `library.Manager` (manager.go lines 26–38):
`lastCheckedTimes` maps a Library ID to the last scan-initiation time and
`workerCompletedMap` maps a Library ID to whether the spawned worker has
finished. -/
structure Manager where
  lastCheckedTimes : Int → Option Int
  workerCompletedMap : Int → Option Bool

/-- Embeds a Go map store `m[k] = v` for maps keyed by Library ID. -/
def updateMap {α : Type} (f : Int → Option α) (k : Int) (v : α) :
    Int → Option α :=
  fun i => if i = k then some v else f i

/-- Embeds the per-library body of the scheduler loop in `Manager.Start`
(manager.go lines 57–77): look up or initialise the last-checked time
(defaulting to the epoch, `time.Unix(0, 0)`) and the worker-completed flag
(defaulting to `true`), then, when `time.Since(t) > lib.FsCheckInterval`
and the previous worker finished, record `lastChecked = now`, clear the
worker-completed flag and launch the scan worker.  The returned `Bool`
records whether the worker was launched. -/
def startLibraryStep (now : Int) (m : Manager) (lib : Library) :
    Manager × Bool :=
  let m1 : Manager :=
    match m.lastCheckedTimes lib.ID with
    | some _ => m
    | none => { m with lastCheckedTimes := updateMap m.lastCheckedTimes lib.ID 0 }
  let t : Int := (m1.lastCheckedTimes lib.ID).getD 0
  let m2 : Manager :=
    match m1.workerCompletedMap lib.ID with
    | some _ => m1
    | none => { m1 with workerCompletedMap := updateMap m1.workerCompletedMap lib.ID true }
  let previousWorkerFinished : Bool := (m2.workerCompletedMap lib.ID).getD true
  if now - t > lib.FsCheckInterval ∧ previousWorkerFinished = true then
    ({ lastCheckedTimes := updateMap m2.lastCheckedTimes lib.ID now,
       workerCompletedMap := updateMap m2.workerCompletedMap lib.ID false }, true)
  else
    (m2, false)

/-- The last-checked time the scheduler uses for a library: the stored value,
or the epoch when the library was never seen (manager.go lines 58–62). -/
def lastCheckedOrEpoch (m : Manager) (id : Int) : Int :=
  (m.lastCheckedTimes id).getD 0

/-- The worker-completed flag the scheduler uses for a library: the stored
value, or `true` when the library was never seen (manager.go lines 64–68). -/
def workerFinishedOrDefault (m : Manager) (id : Int) : Bool :=
  (m.workerCompletedMap id).getD true

/-- Embeds the external collaborators a scan worker calls (manager.go lines
84–143): the video-file discoverer, the dispatch query, the metadata reader
(Go returns a metadata value and an error together, so the reader yields
the value paired with an error flag), the command decider, the persistence
call's success result, and the UUID generator (indexed by how many UUIDs
were generated so far). -/
structure ScanEnv where
  VideoFiles : String → Except Unit (List String)
  IsPathDispatched : String → Except Unit Bool
  Read : String → FileMetadata × Bool
  Decide : FileMetadata → String → Except Unit (List String)
  SaveLibrary : Library → Bool
  uuid : Nat → String

/-- Observable effect of processing one discovered path: data-store queries,
log statements at each level, metadata reads, decider calls, queue pushes
and persistence calls (with the store's success result). -/
inductive Effect where
  | LogDebug : Effect
  | LogError : Effect
  | LogInfo : Effect
  | QueryDispatch : String → Effect
  | ReadMeta : String → Effect
  | DecideCall : FileMetadata → Effect
  | PushJob : Job → Effect
  | SaveLib : Bool → Effect
deriving DecidableEq

/-- Selects the log statements of a trace: `true` exactly on the debug,
error and info log effects. -/
def isLogEffect : Effect → Bool
  | Effect.LogDebug => true
  | Effect.LogError => true
  | Effect.LogInfo => true
  | _ => false

/-- Embeds the path-mask loop of `updateLibraryQueue` (manager.go lines
97–104): walk the library's masks and stop at the first one the path
contains. -/
def maskedOutLoop : List String → String → Bool
  | [], _ => false
  | v :: rest, p => if strContains p v then true else maskedOutLoop rest p

/-- Embeds one iteration of the discovered-paths loop of
`updateLibraryQueue` (manager.go lines 95–143): mask filter, dispatch
filter, queue filter, metadata read (a failed read is logged but still
feeds the decider), command decision, job creation, queue push and
persistence.  Returns the updated library, the updated UUID counter and
the effect trace of this path. -/
def processPath (env : ScanEnv) (lib : Library) (n : Nat) (p : String) :
    Library × Nat × List Effect :=
  if maskedOutLoop lib.PathMasks p then
    (lib, n, [Effect.LogDebug])
  else
    match env.IsPathDispatched p with
    | Except.error _ => (lib, n, [Effect.QueryDispatch p, Effect.LogError])
    | Except.ok pathDispatched =>
      if pathDispatched || LibraryQueue.InQueuePath lib.Queue ⟨"", p, [], ""⟩ then
        (lib, n, [Effect.QueryDispatch p])
      else
        match env.Decide (env.Read p).1 lib.CommandDeciderSettings with
        | Except.error _ =>
          (lib, n,
            Effect.QueryDispatch p ::
              ((if (env.Read p).2 then [Effect.ReadMeta p, Effect.LogError]
                else [Effect.ReadMeta p]) ++
                [Effect.DecideCall (env.Read p).1, Effect.LogDebug]))
        | Except.ok commandSlice =>
          ({ lib with
              Queue := LibraryQueue.Push lib.Queue ⟨env.uuid n, p, commandSlice, (env.Read p).1⟩ },
            n + 1,
            Effect.QueryDispatch p ::
              ((if (env.Read p).2 then [Effect.ReadMeta p, Effect.LogError]
                else [Effect.ReadMeta p]) ++
                [Effect.DecideCall (env.Read p).1,
                  Effect.PushJob ⟨env.uuid n, p, commandSlice, (env.Read p).1⟩,
                  Effect.LogInfo,
                  Effect.SaveLib (env.SaveLibrary { lib with
                    Queue := LibraryQueue.Push lib.Queue
                      ⟨env.uuid n, p, commandSlice, (env.Read p).1⟩ })]))

/-- Embeds the discovered-paths loop of `updateLibraryQueue` (manager.go
lines 95–143) over a whole list of discovered paths, threading the library
and the UUID counter and concatenating the effect traces. -/
def scanLoop (env : ScanEnv) (lib : Library) (n : Nat) :
    List String → Library × Nat × List Effect
  | [] => (lib, n, [])
  | p :: rest =>
    let r := processPath env lib n p
    let r2 := scanLoop env r.1 r.2.1 rest
    (r2.1, r2.2.1, r.2.2 ++ r2.2.2)

/-- Embeds `Manager.updateLibraryQueue` (manager.go lines 84–144): discover
the video files under the library's folder — on failure log and return
early — otherwise run the discovered-paths loop; on every exit path the
deferred statement stores `true` in `workerCompletedMap` for this library.
Returns the updated worker map, the updated library and the effect trace. -/
def updateLibraryQueue (env : ScanEnv) (wcm : Int → Option Bool) (lib : Library) :
    (Int → Option Bool) × Library × List Effect :=
  match env.VideoFiles lib.Folder with
  | Except.error _ => (updateMap wcm lib.ID true, lib, [Effect.LogError])
  | Except.ok discoveredVideos =>
    let r := scanLoop env lib 0 discoveredVideos
    (updateMap wcm lib.ID true, r.1, r.2.2)

/-- Runs a sequence of scan-worker rounds against one library, each round
with its own external environment (the data store's answers may change
between rounds), threading the library state the worker leaves behind. -/
def runRounds : List ScanEnv → Library → Library
  | [], lib => lib
  | e :: es, lib => runRounds es (updateLibraryQueue e (fun _ => none) lib).2.1

/-- A queue satisfies the dedup invariant when no two of its jobs share a
source path. -/
def NoDupPaths (q : List Job) : Prop :=
  (q.map Job.Path).Nodup

instance (q : List Job) : Decidable (NoDupPaths q) :=
  inferInstanceAs (Decidable (q.map Job.Path).Nodup)

/-- Embeds `Manager.PopNewJob` as written (manager.go lines 171–181): the
body logs "Not implemented" and returns the zero-valued `controller.Job`;
it consults neither the data store nor any queue. -/
def PopNewJob : Job :=
  ⟨"", "", [], ""⟩

/-- Library `a` comes strictly before library `b` in the required pop
order: higher priority first, ties broken by smaller Library ID. -/
def libBefore (a b : Library) : Bool :=
  decide (b.Priority < a.Priority) ||
    (decide (a.Priority = b.Priority) && decide (a.ID < b.ID))

/-- Insertion step of the priority sort used by `specPopNewJob`. -/
def insertLib (x : Library) : List Library → List Library
  | [] => [x]
  | y :: ys => if libBefore x y then x :: y :: ys else y :: insertLib x ys

/-- Insertion sort of libraries by priority descending, Library ID
ascending. -/
def sortLibs : List Library → List Library
  | [] => []
  | x :: xs => insertLib x (sortLibs xs)

/-- Modelled from the spec: the required `PopNewJob` algorithm (spec
section 4.3, also the steps listed in the source's own comment at
manager.go lines 175–178) — sort all libraries by priority descending with
ties broken by Library ID ascending, scan each queue in FIFO order and
return the first job; `none` is the "no job available" signal. -/
def specPopNewJob (libs : List Library) : Option Job :=
  (sortLibs libs).findSome? (fun l => l.Queue.head?)

/-- Embeds `Manager.UpdateLibrarySettings` as written (manager.go lines
185–188): the body only logs "Not implemented", so the stored libraries
are left untouched whatever update map is supplied. -/
def UpdateLibrarySettings (libs : List Library) (_updates : Int → Option Library) :
    List Library :=
  libs

/-- Modelled from the spec: the required `UpdateLibrarySettings` behaviour
(spec section 4.5, also the source's own doc comment at manager.go lines
183–184) — for every library whose ID has an entry in the update map,
replace every field by the supplied record's field except `ID` and
`Queue`, which keep their current values; IDs matching no library are
skipped. -/
def specUpdateLibrarySettings (libs : List Library) (updates : Int → Option Library) :
    List Library :=
  libs.map (fun lib =>
    match updates lib.ID with
    | none => lib
    | some newLib => { newLib with ID := lib.ID, Queue := lib.Queue })

/-- Concrete scan environment used to evaluate the scan-worker theorems:
two discoverable files, a store that reports one special path with a query
error and everything else as not dispatched, an error-free reader and a
decider that always produces one command. -/
def envW : ScanEnv where
  VideoFiles := fun _ => Except.ok ["/m/a.mkv", "/m/b.mkv"]
  IsPathDispatched := fun p =>
    if p = "/m/err.mkv" then Except.error () else Except.ok false
  Read := fun _ => ("md", false)
  Decide := fun _ _ => Except.ok ["enc"]
  SaveLibrary := fun _ => true
  uuid := fun n => "u" ++ toString n

/-- Variant of `envW` whose metadata reader always fails while still
returning a metadata value, mirroring a Go `Read` call that returns both a
value and a non-nil error. -/
def envR : ScanEnv :=
  { envW with Read := fun _ => ("md", true) }

/-- Variant of `envW` whose persistence call always fails. -/
def envFS : ScanEnv :=
  { envW with SaveLibrary := fun _ => false }

/-- Concrete library with no masks and an empty queue. -/
def libW : Library :=
  ⟨1, "/m", 0, 10, [], "s", []⟩

/-- Concrete library carrying the spec's example path masks. -/
def libM : Library :=
  ⟨2, "/movies", 0, 10, ["/tmp/", "_partial"], "s", []⟩

/-- The job `envW` enqueues for the first discovered path. -/
def jobW : Job :=
  ⟨"u0", "/m/a.mkv", ["enc"], "md"⟩

/-- Scheduler state in which no library has ever been seen. -/
def mgrW : Manager :=
  ⟨fun _ => none, fun _ => none⟩

/-- Concrete queued jobs for the pop-order and settings-update scenarios. -/
def job1 : Job :=
  ⟨"uuid-1", "/a/one.mkv", ["c1"], "m1"⟩

def job2 : Job :=
  ⟨"uuid-2", "/b/two.mkv", ["c2"], "m2"⟩

/-- Library A of the spec's priority-pop scenario: priority 5, queue
`[job1]`. -/
def libA : Library :=
  ⟨1, "/a", 5, 10, [], "s", [job1]⟩

/-- Library B of the spec's priority-pop scenario: priority 10, queue
`[job2]`. -/
def libB : Library :=
  ⟨2, "/b", 10, 10, [], "s", [job2]⟩

def jobQ1 : Job :=
  ⟨"q1", "/one/a.mkv", [], "m"⟩

def jobQ2 : Job :=
  ⟨"q2", "/one/b.mkv", [], "m"⟩

def jobQ3 : Job :=
  ⟨"q3", "/one/c.mkv", [], "m"⟩

/-- Stored library 1 of the settings-update scenario: three queued jobs. -/
def oldLib : Library :=
  ⟨1, "/one", 3, 10, [], "old-settings", [jobQ1, jobQ2, jobQ3]⟩

/-- Replacement record supplied for library 1: different folder, priority,
interval, masks and settings, with an empty queue. -/
def newLibW : Library :=
  ⟨1, "/one-new", 9, 20, ["mask"], "new-settings", []⟩

/-- Update map sending library ID 1 to `newLibW`. -/
def updW : Int → Option Library :=
  fun i => if i = 1 then some newLibW else none

theorem startsWithL_iff (s pat : List Char) :
    startsWithL s pat = true ↔ ∃ r, s = pat ++ r := by
  induction s generalizing pat with
  | nil =>
    cases pat with
    | nil => simp [startsWithL]
    | cons b bs => simp [startsWithL]
  | cons a as ih =>
    cases pat with
    | nil => simp [startsWithL]
    | cons b bs =>
      simp only [startsWithL, Bool.and_eq_true, beq_iff_eq, ih,
        List.cons_append, List.cons.injEq]
      constructor
      · rintro ⟨rfl, r, rfl⟩
        exact ⟨r, rfl, rfl⟩
      · rintro ⟨r, rfl, rfl⟩
        exact ⟨rfl, r, rfl⟩

theorem containsSubL_iff (s pat : List Char) :
    containsSubL s pat = true ↔ ∃ l r, s = l ++ pat ++ r := by
  induction s with
  | nil =>
    simp only [containsSubL, beq_iff_eq]
    constructor
    · rintro rfl
      exact ⟨[], [], rfl⟩
    · rintro ⟨l, r, h⟩
      have h2 := List.append_eq_nil.mp h.symm
      exact (List.append_eq_nil.mp h2.1).2
  | cons c rest ih =>
    simp only [containsSubL, Bool.or_eq_true, startsWithL_iff, ih]
    constructor
    · rintro (⟨r, hr⟩ | ⟨l, r, hr⟩)
      · exact ⟨[], r, by simpa using hr⟩
      · exact ⟨c :: l, r, by simp [hr]⟩
    · rintro ⟨l, r, hr⟩
      cases l with
      | nil =>
        left
        exact ⟨r, by simpa using hr⟩
      | cons x l' =>
        right
        simp only [List.cons_append, List.cons.injEq] at hr
        exact ⟨l', r, hr.2⟩

theorem strContains_iff (s sub : String) :
    strContains s sub = true ↔ ∃ l r, s.toList = l ++ sub.toList ++ r :=
  containsSubL_iff s.toList sub.toList

theorem InQueuePath_probe (q : List Job) (p : String) :
    LibraryQueue.InQueuePath q ⟨"", p, [], ""⟩ = q.any (fun x => x.Path == p) :=
  rfl

/-- Processing one path either leaves the library and counter unchanged, or
appends exactly one job whose path is the processed path, and in that case
the data store reported the path as not dispatched and no job with that
path was in the queue. -/
theorem processPath_queue_cases (env : ScanEnv) (lib : Library) (n : Nat) (p : String) :
    ((processPath env lib n p).1 = lib ∧ (processPath env lib n p).2.1 = n) ∨
    (∃ j, (processPath env lib n p).1 = { lib with Queue := lib.Queue ++ [j] } ∧
      j.Path = p ∧
      env.IsPathDispatched p = Except.ok false ∧
      lib.Queue.any (fun x => x.Path == p) = false) := by
  unfold processPath
  split
  · exact Or.inl ⟨rfl, rfl⟩
  · cases hd : env.IsPathDispatched p with
    | error e => exact Or.inl ⟨rfl, rfl⟩
    | ok d =>
      simp only
      split
      · exact Or.inl ⟨rfl, rfl⟩
      · rename_i hguard
        rw [Bool.or_eq_true, not_or, InQueuePath_probe] at hguard
        obtain ⟨hd0, hq0⟩ := hguard
        cases hdec : env.Decide (env.Read p).1 lib.CommandDeciderSettings with
        | error e => exact Or.inl ⟨rfl, rfl⟩
        | ok commandSlice =>
          refine Or.inr ⟨⟨env.uuid n, p, commandSlice, (env.Read p).1⟩, rfl, rfl, ?_, ?_⟩
          · rw [hd, Bool.not_eq_true] at *
            rw [hd]
            exact congrArg Except.ok (by simpa using hd0)
          · simpa using hq0

/-- Processing a path only ever touches the queue: the path masks are
preserved. -/
theorem processPath_masks (env : ScanEnv) (lib : Library) (n : Nat) (p : String) :
    (processPath env lib n p).1.PathMasks = lib.PathMasks := by
  rcases processPath_queue_cases env lib n p with ⟨h, _⟩ | ⟨j, h, _, _, _⟩ <;> rw [h]

theorem scanLoop_masks (env : ScanEnv) (l : List String) (lib : Library) (n : Nat) :
    (scanLoop env lib n l).1.PathMasks = lib.PathMasks := by
  induction l generalizing lib n with
  | nil => rfl
  | cons p rest ih =>
    show (scanLoop env (processPath env lib n p).1 (processPath env lib n p).2.1 rest).1.PathMasks = _
    rw [ih (processPath env lib n p).1 (processPath env lib n p).2.1,
      processPath_masks env lib n p]

/-- A queue whose membership probe for `p` answers `false` contains no job
with path `p`. -/
theorem path_not_mem_of_any_false {q : List Job} {p : String}
    (h : q.any (fun x => x.Path == p) = false) : p ∉ q.map Job.Path := by
  intro hmem
  rcases List.mem_map.mp hmem with ⟨x, hx, hxp⟩
  have : q.any (fun x => x.Path == p) = true :=
    List.any_eq_true.mpr ⟨x, hx, by simp [hxp]⟩
  rw [h] at this
  exact Bool.false_ne_true this

theorem nodupPaths_append_single {q : List Job} {j : Job} (h : NoDupPaths q)
    (hj : j.Path ∉ q.map Job.Path) : NoDupPaths (q ++ [j]) := by
  unfold NoDupPaths at *
  rw [List.map_append]
  refine h.append ?_ ?_
  · simp
  · intro a ha hb
    have hab : a = j.Path := by simpa using hb
    exact hj (hab ▸ ha)

theorem processPath_nodup (env : ScanEnv) (lib : Library) (n : Nat) (p : String)
    (h : NoDupPaths lib.Queue) : NoDupPaths (processPath env lib n p).1.Queue := by
  rcases processPath_queue_cases env lib n p with ⟨h1, _⟩ | ⟨j, h1, hp, _, hany⟩
  · rw [h1]; exact h
  · rw [h1]
    exact nodupPaths_append_single h (hp ▸ path_not_mem_of_any_false hany)

theorem scanLoop_nodup (env : ScanEnv) (l : List String) (lib : Library) (n : Nat)
    (h : NoDupPaths lib.Queue) : NoDupPaths (scanLoop env lib n l).1.Queue := by
  induction l generalizing lib n with
  | nil => exact h
  | cons p rest ih =>
    exact ih (processPath env lib n p).1 (processPath env lib n p).2.1
      (processPath_nodup env lib n p h)

theorem updateLibraryQueue_nodup (env : ScanEnv) (wcm : Int → Option Bool) (lib : Library)
    (h : NoDupPaths lib.Queue) : NoDupPaths (updateLibraryQueue env wcm lib).2.1.Queue := by
  unfold updateLibraryQueue
  cases henv : env.VideoFiles lib.Folder with
  | error e => exact h
  | ok vids => exact scanLoop_nodup env vids lib 0 h

theorem runRounds_nodup (envs : List ScanEnv) (lib : Library)
    (h : NoDupPaths lib.Queue) : NoDupPaths (runRounds envs lib).Queue := by
  induction envs generalizing lib with
  | nil => exact h
  | cons e es ih =>
    exact ih (updateLibraryQueue e (fun _ => none) lib).2.1
      (updateLibraryQueue_nodup e (fun _ => none) lib h)

/-- A push recorded in the trace of one path's processing pins down the
pushed job: its path is the processed path, the store reported it as not
dispatched, and the job was appended to the queue. -/
theorem processPath_push_mem (env : ScanEnv) (lib : Library) (n : Nat) (p : String) (j : Job)
    (h : Effect.PushJob j ∈ (processPath env lib n p).2.2) :
    j.Path = p ∧ env.IsPathDispatched p = Except.ok false ∧
    (processPath env lib n p).1.Queue = lib.Queue ++ [j] := by
  by_cases hmask : maskedOutLoop lib.PathMasks p = true
  · simp [processPath, hmask] at h
  · cases hd : env.IsPathDispatched p with
    | error e => simp [processPath, hmask, hd] at h
    | ok d =>
      cases d with
      | true => simp [processPath, hmask, hd] at h
      | false =>
        cases hq : LibraryQueue.InQueuePath lib.Queue ⟨"", p, [], ""⟩ with
        | true => simp [processPath, hmask, hd, hq] at h
        | false =>
          cases hdec : env.Decide (env.Read p).1 lib.CommandDeciderSettings with
          | error e =>
            cases hr : (env.Read p).2 <;> simp [processPath, hmask, hd, hq, hdec, hr] at h
          | ok commandSlice =>
            have hj : j = ⟨env.uuid n, p, commandSlice, (env.Read p).1⟩ := by
              cases hr : (env.Read p).2 <;>
                simpa [processPath, hmask, hd, hq, hdec, hr] using h
            subst hj
            refine ⟨rfl, rfl, ?_⟩
            simp [processPath, hmask, hd, hq, hdec, LibraryQueue.Push]

theorem scanLoop_push_mem (env : ScanEnv) (l : List String) (lib : Library) (n : Nat) (j : Job)
    (h : Effect.PushJob j ∈ (scanLoop env lib n l).2.2) :
    env.IsPathDispatched j.Path = Except.ok false := by
  induction l generalizing lib n with
  | nil => simp [scanLoop] at h
  | cons p rest ih =>
    rw [show scanLoop env lib n (p :: rest) =
        ((scanLoop env (processPath env lib n p).1 (processPath env lib n p).2.1 rest).1,
         (scanLoop env (processPath env lib n p).1 (processPath env lib n p).2.1 rest).2.1,
         (processPath env lib n p).2.2 ++
           (scanLoop env (processPath env lib n p).1 (processPath env lib n p).2.1 rest).2.2)
        from rfl] at h
    rcases List.mem_append.mp h with h1 | h2
    · obtain ⟨hp, hdisp, _⟩ := processPath_push_mem env lib n p j h1
      rw [hp]
      exact hdisp
    · exact ih (processPath env lib n p).1 (processPath env lib n p).2.1 h2

theorem updateLibraryQueue_push_mem (env : ScanEnv) (wcm : Int → Option Bool) (lib : Library)
    (j : Job) (h : Effect.PushJob j ∈ (updateLibraryQueue env wcm lib).2.2) :
    env.IsPathDispatched j.Path = Except.ok false := by
  unfold updateLibraryQueue at h
  cases henv : env.VideoFiles lib.Folder with
  | error e => rw [henv] at h; simp at h
  | ok vids =>
    rw [henv] at h
    exact scanLoop_push_mem env vids lib 0 j h

theorem scanLoop_append (env : ScanEnv) (a b : List String) (lib : Library) (n : Nat) :
    scanLoop env lib n (a ++ b) =
      ((scanLoop env (scanLoop env lib n a).1 (scanLoop env lib n a).2.1 b).1,
       (scanLoop env (scanLoop env lib n a).1 (scanLoop env lib n a).2.1 b).2.1,
       (scanLoop env lib n a).2.2 ++
         (scanLoop env (scanLoop env lib n a).1 (scanLoop env lib n a).2.1 b).2.2) := by
  induction a generalizing lib n with
  | nil => simp [scanLoop]
  | cons p rest ih =>
    simp [scanLoop, ih, List.append_assoc]

/-- The mask loop answers `true` exactly when some mask occurs as a
contiguous substring of the path. -/
theorem maskedOutLoop_iff (masks : List String) (p : String) :
    maskedOutLoop masks p = true ↔
      ∃ v ∈ masks, ∃ l r, p.toList = l ++ v.toList ++ r := by
  induction masks with
  | nil => simp [maskedOutLoop]
  | cons v rest ih =>
    by_cases hv : strContains p v = true
    · simp only [maskedOutLoop, if_pos hv, true_iff]
      rcases (strContains_iff p v).mp hv with ⟨l, r, hlr⟩
      exact ⟨v, List.mem_cons_self v rest, l, r, hlr⟩
    · simp only [maskedOutLoop, if_neg hv, ih]
      constructor
      · rintro ⟨w, hw, l, r, hlr⟩
        exact ⟨w, List.mem_cons_of_mem v hw, l, r, hlr⟩
      · rintro ⟨w, hw, l, r, hlr⟩
        rcases List.mem_cons.mp hw with rfl | hw'
        · exact absurd ((strContains_iff p w).mpr ⟨l, r, hlr⟩) hv
        · exact ⟨w, hw', l, r, hlr⟩

/-- Processing a path whose dispatch query fails leaves the library and
counter untouched and produces exactly the query effect and an error log. -/
theorem processPath_dispatch_error (env : ScanEnv) (lib : Library) (n : Nat) (p : String)
    (hmask : maskedOutLoop lib.PathMasks p = false)
    (hdisp : env.IsPathDispatched p = Except.error ()) :
    processPath env lib n p = (lib, n, [Effect.QueryDispatch p, Effect.LogError]) := by
  simp [processPath, hmask, hdisp]

/-- The library and counter produced by processing a path do not depend on
the persistence call's result: `SaveLibrary`'s answer only ever appears
inside the effect trace. -/
theorem processPath_save_indep (e : ScanEnv) (f : Library → Bool) (lib : Library) (n : Nat)
    (p : String) :
    (processPath { e with SaveLibrary := f } lib n p).1 = (processPath e lib n p).1 ∧
    (processPath { e with SaveLibrary := f } lib n p).2.1 = (processPath e lib n p).2.1 := by
  by_cases hmask : maskedOutLoop lib.PathMasks p = true
  · simp [processPath, hmask]
  · cases hd : e.IsPathDispatched p with
    | error err => simp [processPath, hmask, hd]
    | ok d =>
      cases d with
      | true => simp [processPath, hmask, hd]
      | false =>
        cases hq : LibraryQueue.InQueuePath lib.Queue ⟨"", p, [], ""⟩ with
        | true => simp [processPath, hmask, hd, hq]
        | false =>
          cases hdec : e.Decide (e.Read p).1 lib.CommandDeciderSettings with
          | error err => simp [processPath, hmask, hd, hq, hdec]
          | ok commandSlice => simp [processPath, hmask, hd, hq, hdec]

theorem scanLoop_save_indep (e : ScanEnv) (f : Library → Bool) (l : List String)
    (lib : Library) (n : Nat) :
    (scanLoop { e with SaveLibrary := f } lib n l).1 = (scanLoop e lib n l).1 ∧
    (scanLoop { e with SaveLibrary := f } lib n l).2.1 = (scanLoop e lib n l).2.1 := by
  induction l generalizing lib n with
  | nil => exact ⟨rfl, rfl⟩
  | cons p rest ih =>
    obtain ⟨h1, h2⟩ := processPath_save_indep e f lib n p
    show ((scanLoop { e with SaveLibrary := f }
        (processPath { e with SaveLibrary := f } lib n p).1
        (processPath { e with SaveLibrary := f } lib n p).2.1 rest).1 = _) ∧
      ((scanLoop { e with SaveLibrary := f }
        (processPath { e with SaveLibrary := f } lib n p).1
        (processPath { e with SaveLibrary := f } lib n p).2.1 rest).2.1 = _)
    rw [h1, h2]
    exact ih (processPath e lib n p).1 (processPath e lib n p).2.1

theorem updateLibraryQueue_save_indep (e : ScanEnv) (f : Library → Bool)
    (wcm : Int → Option Bool) (lib : Library) :
    (updateLibraryQueue { e with SaveLibrary := f } wcm lib).1 =
      (updateLibraryQueue e wcm lib).1 ∧
    (updateLibraryQueue { e with SaveLibrary := f } wcm lib).2.1 =
      (updateLibraryQueue e wcm lib).2.1 := by
  unfold updateLibraryQueue
  cases henv : e.VideoFiles lib.Folder with
  | error err => simp [henv]
  | ok vids =>
    simp only [henv]
    exact ⟨trivial, (scanLoop_save_indep e f vids lib 0).1⟩

/-- The log statements a path's processing emits do not depend on the
persistence call's result: in particular a failing `SaveLibrary` adds no
error log. -/
theorem processPath_save_logs (e : ScanEnv) (f : Library → Bool) (lib : Library)
    (n : Nat) (p : String) :
    (processPath { e with SaveLibrary := f } lib n p).2.2.filter isLogEffect =
      (processPath e lib n p).2.2.filter isLogEffect := by
  by_cases hmask : maskedOutLoop lib.PathMasks p = true
  · simp [processPath, hmask]
  · cases hd : e.IsPathDispatched p with
    | error err => simp [processPath, hmask, hd]
    | ok d =>
      cases d with
      | true => simp [processPath, hmask, hd]
      | false =>
        cases hq : LibraryQueue.InQueuePath lib.Queue ⟨"", p, [], ""⟩ with
        | true => simp [processPath, hmask, hd, hq]
        | false =>
          cases hdec : e.Decide (e.Read p).1 lib.CommandDeciderSettings with
          | error err => simp [processPath, hmask, hd, hq, hdec]
          | ok commandSlice =>
            cases hr : (e.Read p).2 <;>
              simp [processPath, hmask, hd, hq, hdec, hr, isLogEffect]

theorem scanLoop_save_logs (e : ScanEnv) (f : Library → Bool) (l : List String)
    (lib : Library) (n : Nat) :
    (scanLoop { e with SaveLibrary := f } lib n l).2.2.filter isLogEffect =
      (scanLoop e lib n l).2.2.filter isLogEffect := by
  induction l generalizing lib n with
  | nil => rfl
  | cons p rest ih =>
    obtain ⟨h1, h2⟩ := processPath_save_indep e f lib n p
    show ((processPath { e with SaveLibrary := f } lib n p).2.2 ++
        (scanLoop { e with SaveLibrary := f }
          (processPath { e with SaveLibrary := f } lib n p).1
          (processPath { e with SaveLibrary := f } lib n p).2.1 rest).2.2).filter isLogEffect =
      ((processPath e lib n p).2.2 ++
        (scanLoop e (processPath e lib n p).1 (processPath e lib n p).2.1 rest).2.2).filter
          isLogEffect
    rw [List.filter_append, List.filter_append, h1, h2,
      processPath_save_logs e f lib n p,
      ih (processPath e lib n p).1 (processPath e lib n p).2.1]

theorem updateLibraryQueue_save_logs (e : ScanEnv) (f : Library → Bool)
    (wcm : Int → Option Bool) (lib : Library) :
    (updateLibraryQueue { e with SaveLibrary := f } wcm lib).2.2.filter isLogEffect =
      (updateLibraryQueue e wcm lib).2.2.filter isLogEffect := by
  unfold updateLibraryQueue
  cases henv : e.VideoFiles lib.Folder with
  | error err => simp [henv]
  | ok vids =>
    simp only [henv]
    exact scanLoop_save_logs e f vids lib 0

/-- C1: the claim requires `PopNewJob` to fetch all libraries, order them by
priority descending (ties by ID ascending), scan queues in FIFO order and
return the first job found.  The source's `PopNewJob` body is a stub that
logs "Not implemented" and returns the zero-valued job, contradicting the
steps documented in its own comment: on the spec's own scenario
(library A priority 5 queue `[job1]`, library B priority 10 queue
`[job2]`) the required algorithm returns `job2`, while the code returns
the zero job. -/
theorem PopNewJob_stub_diverges :
    specPopNewJob [libA, libB] = some job2 ∧
    PopNewJob = (⟨"", "", [], ""⟩ : Job) ∧
    PopNewJob ≠ job2 :=
  ⟨rfl, rfl, by decide⟩

/-- C2: across any number of scan rounds the queue never holds two jobs
with the same source path, and any job pushed during a round had been
reported by that round's data store as not dispatched (in particular a
path reported dispatched at filter time is never pushed). -/
theorem scan_rounds_dedup :
    (∀ (envs : List ScanEnv) (lib : Library),
        NoDupPaths lib.Queue → NoDupPaths (runRounds envs lib).Queue) ∧
    (∀ (env : ScanEnv) (wcm : Int → Option Bool) (lib : Library) (j : Job),
        Effect.PushJob j ∈ (updateLibraryQueue env wcm lib).2.2 →
        env.IsPathDispatched j.Path = Except.ok false) :=
  ⟨fun envs lib h => runRounds_nodup envs lib h,
   fun env wcm lib j h => updateLibraryQueue_push_mem env wcm lib j h⟩

theorem scan_rounds_dedup_witness :
    NoDupPaths (runRounds [envW] libW).Queue ∧
    envW.IsPathDispatched jobW.Path = Except.ok false :=
  ⟨scan_rounds_dedup.1 [envW] libW (by decide),
   scan_rounds_dedup.2 envW (fun _ => none) libW jobW (by decide)⟩

/-- C4: a library whose ID has no entry in either scheduler map is treated
as last checked at the epoch, so on the next tick — whenever the current
time exceeds the (positive) check interval, as wall-clock time always does
— the due condition holds and the scan worker is launched immediately. -/
theorem fresh_library_scans_immediately (now : Int) (m : Manager) (lib : Library)
    (h1 : m.lastCheckedTimes lib.ID = none)
    (h2 : m.workerCompletedMap lib.ID = none)
    (_h3 : 0 < lib.FsCheckInterval)
    (h4 : lib.FsCheckInterval < now) :
    (startLibraryStep now m lib).2 = true := by
  unfold startLibraryStep
  simp [h1, h2, updateMap, h4]

theorem fresh_library_scans_immediately_witness :
    (startLibraryStep 100 mgrW libW).2 = true :=
  fresh_library_scans_immediately 100 mgrW libW rfl rfl (by decide) (by decide)

/-- C3: on a scheduler tick, the worker for a library is launched exactly
when `now - lastChecked > FsCheckInterval` (with the epoch default for an
unseen library) and the worker-completed flag (default `true`) is set; and
whenever it is launched, the state recorded before the launch has
`lastChecked = now` and the worker-completed flag cleared. -/
theorem startLibraryStep_spec (now : Int) (m : Manager) (lib : Library) :
    ((startLibraryStep now m lib).2 = true ↔
      (now - lastCheckedOrEpoch m lib.ID > lib.FsCheckInterval ∧
        workerFinishedOrDefault m lib.ID = true)) ∧
    ((startLibraryStep now m lib).2 = true →
      ((startLibraryStep now m lib).1.lastCheckedTimes lib.ID = some now ∧
        (startLibraryStep now m lib).1.workerCompletedMap lib.ID = some false)) := by
  unfold startLibraryStep lastCheckedOrEpoch workerFinishedOrDefault
  cases hl : m.lastCheckedTimes lib.ID with
  | none =>
    cases hw : m.workerCompletedMap lib.ID with
    | none =>
      simp [updateMap, hl, hw]
      split_ifs with hc <;> simp [updateMap, hc]
    | some b =>
      cases b with
      | false => simp [updateMap, hl, hw]
      | true =>
        simp [updateMap, hl, hw]
        split_ifs with hc <;> simp [updateMap, hc]
  | some t0 =>
    cases hw : m.workerCompletedMap lib.ID with
    | none =>
      simp [updateMap, hl, hw]
      split_ifs with hc <;> simp [updateMap, hc]
    | some b =>
      cases b with
      | false => simp [updateMap, hl, hw]
      | true =>
        simp [updateMap, hl, hw]
        split_ifs with hc <;> simp [updateMap, hc]

theorem startLibraryStep_spec_witness :
    ((100 : Int) - lastCheckedOrEpoch mgrW libW.ID > libW.FsCheckInterval ∧
      workerFinishedOrDefault mgrW libW.ID = true) ∧
    (startLibraryStep 100 mgrW libW).1.lastCheckedTimes libW.ID = some 100 ∧
    (startLibraryStep 100 mgrW libW).1.workerCompletedMap libW.ID = some false :=
  ⟨(startLibraryStep_spec 100 mgrW libW).1.mp (by decide),
   (startLibraryStep_spec 100 mgrW libW).2 (by decide)⟩

/-- C6: a path whose metadata read fails is not skipped: the error is
logged, the command decider still runs on the metadata value the failed
read produced, and when the decider succeeds a job carrying exactly that
metadata is created and pushed onto the queue. -/
theorem metadata_read_failure_still_decides (env : ScanEnv) (lib : Library) (n : Nat)
    (p : String) (fm : FileMetadata) (cmd : List String)
    (hmask : maskedOutLoop lib.PathMasks p = false)
    (hdisp : env.IsPathDispatched p = Except.ok false)
    (hq : LibraryQueue.InQueuePath lib.Queue ⟨"", p, [], ""⟩ = false)
    (hread : env.Read p = (fm, true))
    (hdec : env.Decide fm lib.CommandDeciderSettings = Except.ok cmd) :
    Effect.LogError ∈ (processPath env lib n p).2.2 ∧
    Effect.DecideCall fm ∈ (processPath env lib n p).2.2 ∧
    Effect.PushJob ⟨env.uuid n, p, cmd, fm⟩ ∈ (processPath env lib n p).2.2 ∧
    (processPath env lib n p).1.Queue = lib.Queue ++ [⟨env.uuid n, p, cmd, fm⟩] := by
  have h1 : (env.Read p).1 = fm := by rw [hread]
  have h2 : (env.Read p).2 = true := by rw [hread]
  simp [processPath, hmask, hdisp, hq, h1, h2, hdec, LibraryQueue.Push]

theorem metadata_read_failure_still_decides_witness :
    Effect.LogError ∈ (processPath envR libW 0 "/m/a.mkv").2.2 ∧
    Effect.DecideCall "md" ∈ (processPath envR libW 0 "/m/a.mkv").2.2 ∧
    Effect.PushJob ⟨envR.uuid 0, "/m/a.mkv", ["enc"], "md"⟩ ∈
      (processPath envR libW 0 "/m/a.mkv").2.2 ∧
    (processPath envR libW 0 "/m/a.mkv").1.Queue =
      libW.Queue ++ [⟨envR.uuid 0, "/m/a.mkv", ["enc"], "md"⟩] :=
  metadata_read_failure_still_decides envR libW 0 "/m/a.mkv" "md" ["enc"]
    rfl rfl rfl rfl rfl

/-- C7: a discovered path is masked out exactly when it contains one of the
library's path-mask substrings; a masked path's processing performs nothing
but the debug log (no dispatch query, no metadata read, no push), while a
non-masked path always proceeds to the dispatch query. -/
theorem mask_filter_spec (env : ScanEnv) (lib : Library) (n : Nat) (p : String) :
    (maskedOutLoop lib.PathMasks p = true ↔
      ∃ v ∈ lib.PathMasks, ∃ l r, p.toList = l ++ v.toList ++ r) ∧
    (maskedOutLoop lib.PathMasks p = true →
      processPath env lib n p = (lib, n, [Effect.LogDebug])) ∧
    (maskedOutLoop lib.PathMasks p = false →
      ∃ rest, (processPath env lib n p).2.2 = Effect.QueryDispatch p :: rest) := by
  refine ⟨maskedOutLoop_iff lib.PathMasks p, ?_, ?_⟩
  · intro h
    simp [processPath, h]
  · intro h
    cases hd : env.IsPathDispatched p with
    | error e =>
      exact ⟨[Effect.LogError], by simp [processPath, h, hd]⟩
    | ok d =>
      cases d with
      | true => exact ⟨[], by simp [processPath, h, hd]⟩
      | false =>
        cases hq : LibraryQueue.InQueuePath lib.Queue ⟨"", p, [], ""⟩ with
        | true => exact ⟨[], by simp [processPath, h, hd, hq]⟩
        | false =>
          cases hdec : env.Decide (env.Read p).1 lib.CommandDeciderSettings with
          | error e =>
            exact ⟨(if (env.Read p).2 then [Effect.ReadMeta p, Effect.LogError]
                else [Effect.ReadMeta p]) ++
                [Effect.DecideCall (env.Read p).1, Effect.LogDebug],
              by simp [processPath, h, hd, hq, hdec]⟩
          | ok commandSlice =>
            exact ⟨(if (env.Read p).2 then [Effect.ReadMeta p, Effect.LogError]
                else [Effect.ReadMeta p]) ++
                [Effect.DecideCall (env.Read p).1,
                  Effect.PushJob ⟨env.uuid n, p, commandSlice, (env.Read p).1⟩,
                  Effect.LogInfo,
                  Effect.SaveLib (env.SaveLibrary { lib with
                    Queue := LibraryQueue.Push lib.Queue
                      ⟨env.uuid n, p, commandSlice, (env.Read p).1⟩ })],
              by simp [processPath, h, hd, hq, hdec]⟩

theorem mask_filter_spec_witness :
    (∃ v ∈ libM.PathMasks, ∃ l r,
      ("/movies/tmp/a.mkv" : String).toList = l ++ v.toList ++ r) ∧
    processPath envW libM 0 "/movies/tmp/a.mkv" = (libM, 0, [Effect.LogDebug]) ∧
    (∃ rest, (processPath envW libM 0 "/movies/a.mkv").2.2 =
      Effect.QueryDispatch "/movies/a.mkv" :: rest) :=
  ⟨(mask_filter_spec envW libM 0 "/movies/tmp/a.mkv").1.mp (by decide),
   (mask_filter_spec envW libM 0 "/movies/tmp/a.mkv").2.1 (by decide),
   (mask_filter_spec envW libM 0 "/movies/a.mkv").2.2 (by decide)⟩

/-- C8: when the dispatch query for one discovered path fails, only that
path is dropped (leaving behind exactly its query effect and an error
log): the scan of every other discovered path proceeds exactly as if the
failing path were absent from the discovery list. -/
theorem dispatch_error_skips_only_that_path (env : ScanEnv) (lib : Library) (n : Nat)
    (l1 l2 : List String) (p : String)
    (hmask : maskedOutLoop lib.PathMasks p = false)
    (hdisp : env.IsPathDispatched p = Except.error ()) :
    scanLoop env lib n (l1 ++ p :: l2) =
      ((scanLoop env lib n (l1 ++ l2)).1,
       (scanLoop env lib n (l1 ++ l2)).2.1,
       (scanLoop env lib n l1).2.2 ++
         Effect.QueryDispatch p :: Effect.LogError ::
           (scanLoop env (scanLoop env lib n l1).1
             (scanLoop env lib n l1).2.1 l2).2.2) := by
  have hmask1 : maskedOutLoop (scanLoop env lib n l1).1.PathMasks p = false := by
    rw [scanLoop_masks]
    exact hmask
  have hp := processPath_dispatch_error env (scanLoop env lib n l1).1
    (scanLoop env lib n l1).2.1 p hmask1 hdisp
  rw [scanLoop_append env l1 (p :: l2) lib n, scanLoop_append env l1 l2 lib n]
  simp [scanLoop, hp]

theorem dispatch_error_skips_only_that_path_witness :
    scanLoop envW libW 0 (["/m/a.mkv"] ++ "/m/err.mkv" :: ["/m/b.mkv"]) =
      ((scanLoop envW libW 0 (["/m/a.mkv"] ++ ["/m/b.mkv"])).1,
       (scanLoop envW libW 0 (["/m/a.mkv"] ++ ["/m/b.mkv"])).2.1,
       (scanLoop envW libW 0 ["/m/a.mkv"]).2.2 ++
         Effect.QueryDispatch "/m/err.mkv" :: Effect.LogError ::
           (scanLoop envW (scanLoop envW libW 0 ["/m/a.mkv"]).1
             (scanLoop envW libW 0 ["/m/a.mkv"]).2.1 ["/m/b.mkv"]).2.2) :=
  dispatch_error_skips_only_that_path envW libW 0 ["/m/a.mkv"] ["/m/b.mkv"]
    "/m/err.mkv" (by decide) rfl

/-- C5: whichever exit path the scan worker takes — early return on a
discovery failure or normal completion of the path loop — the deferred
statement leaves the library's worker-completed flag set to `true`. -/
theorem worker_completed_on_every_exit (env : ScanEnv) (wcm : Int → Option Bool)
    (lib : Library) :
    (updateLibraryQueue env wcm lib).1 lib.ID = some true := by
  unfold updateLibraryQueue
  cases henv : env.VideoFiles lib.Folder with
  | error e => simp [updateMap]
  | ok vids => simp [updateMap]

/-- C9: the claim requires `UpdateLibrarySettings` to replace every field
except `ID` and `Queue` for each matched library.  The source's body is a
stub that logs "Not implemented" and changes nothing, contradicting its
own doc comment: applying the update map `updW` (ID 1 ↦ `newLibW`) to a
store holding `oldLib` (ID 1, three queued jobs) should yield `newLibW`'s
fields with `oldLib`'s ID and queue, but the code leaves `oldLib`
untouched. -/
theorem UpdateLibrarySettings_stub_diverges :
    UpdateLibrarySettings [oldLib] updW = [oldLib] ∧
    specUpdateLibrarySettings [oldLib] updW =
      [{ newLibW with ID := oldLib.ID, Queue := oldLib.Queue }] ∧
    UpdateLibrarySettings [oldLib] updW ≠ specUpdateLibrarySettings [oldLib] updW :=
  ⟨rfl, rfl, by decide⟩

/-- C10: the persistence call made after each push has its result
discarded — the worker map and the final library (queue included) are
unchanged under any substitution of the `SaveLibrary` result function, the
log statements emitted by the scan are likewise unchanged (so a
persistence failure is not logged), and a job recorded as pushed is in the
resulting queue, whatever the persistence result was. -/
theorem save_error_discarded (e : ScanEnv) (f : Library → Bool)
    (wcm : Int → Option Bool) (lib : Library) :
    ((updateLibraryQueue { e with SaveLibrary := f } wcm lib).1 =
        (updateLibraryQueue e wcm lib).1 ∧
      (updateLibraryQueue { e with SaveLibrary := f } wcm lib).2.1 =
        (updateLibraryQueue e wcm lib).2.1) ∧
    ((updateLibraryQueue { e with SaveLibrary := f } wcm lib).2.2.filter isLogEffect =
      (updateLibraryQueue e wcm lib).2.2.filter isLogEffect) ∧
    (∀ (n : Nat) (p : String) (j : Job),
        Effect.PushJob j ∈ (processPath e lib n p).2.2 →
        j ∈ (processPath e lib n p).1.Queue) := by
  refine ⟨updateLibraryQueue_save_indep e f wcm lib,
    updateLibraryQueue_save_logs e f wcm lib, ?_⟩
  intro n p j h
  obtain ⟨_, _, hqe⟩ := processPath_push_mem e lib n p j h
  rw [hqe]
  exact List.mem_append_right _ (List.mem_singleton_self j)

theorem save_error_discarded_witness :
    ((updateLibraryQueue { envW with SaveLibrary := fun _ => false }
        (fun _ => none) libW).2.2.filter isLogEffect =
      (updateLibraryQueue envW (fun _ => none) libW).2.2.filter isLogEffect) ∧
    jobW ∈ (processPath envFS libW 0 "/m/a.mkv").1.Queue :=
  ⟨(save_error_discarded envW (fun _ => false) (fun _ => none) libW).2.1,
   (save_error_discarded envFS (fun _ => true) (fun _ => none) libW).2.2
     0 "/m/a.mkv" jobW (by decide)⟩

end Encodarr
